import Mathlib

/-!
Verification of the functionary training/inference pipeline
(`functionary/train/custom_datasets.py` and `functionary/inference.py`).

Pure functions of the source are embedded as Lean functions; the model and
tokenizer (external collaborators) are abstracted as oracle parameters.
Token ids are `Int` (Python ints), mask values are `Int` (the pattern of
`0` versus the fill value `m` is what the claims are about).
-/

/-! ## Python string primitives used by `generate_stream` -/

/-- Python whitespace test used by `str.strip` / `str.lstrip`
(space, tab, newline, carriage return, vertical tab, form feed). -/
def pyIsSpace (c : Char) : Bool :=
  c = ' ' || c = '\t' || c = '\n' || c = '\r' || c.toNat = 11 || c.toNat = 12

/-- Python `str.lstrip()` on a character list. -/
def pyLstrip (cs : List Char) : List Char := cs.dropWhile pyIsSpace

/-- Python `str.strip()` on a character list. -/
def pyStrip (cs : List Char) : List Char :=
  ((cs.dropWhile pyIsSpace).reverse.dropWhile pyIsSpace).reverse

/-- Python `str.lstrip()` on a `String`. -/
def pyLstripStr (s : String) : String := ⟨pyLstrip s.toList⟩

/-- Python `str.strip()` on a `String`. -/
def pyStripStr (s : String) : String := ⟨pyStrip s.toList⟩

/-! ## The regular expression `to=functions\.(?P<f>.+?):` of `generate_stream`.

`re.search` scans for the leftmost start position at which the pattern
matches.  At a fixed start the literal `to=functions.` must match, and the
lazy `.+?:` part captures the minimal non-empty run of non-newline
characters followed by a colon (`.` does not match a newline). -/

/-- The literal part `to=functions.` of the function-call pattern. -/
def litFn : List Char := "to=functions.".toList

/-- Lazy scan for `.+?:` after at least one character has been consumed:
`acc` holds the consumed characters in reverse; stop at the first colon,
fail at a newline or at the end of input. -/
def lazyArgScan : List Char → List Char → Option (List Char)
  | _, [] => none
  | acc, c :: rest =>
    if c = ':' then some acc.reverse
    else if c = '\n' then none
    else lazyArgScan (c :: acc) rest

/-- Match `.+?:` at a fixed position (the group `f` is returned):
the first character is consumed by `.+?` and must not be a newline. -/
def matchAfterLiteral : List Char → Option (List Char)
  | [] => none
  | c :: rest => if c = '\n' then none else lazyArgScan [c] rest

/-- Model of `re.search(r"to=functions\.(?P<f>.+?):", s)`: try each start
position from the left; at a start the literal must be a prefix and the
lazy tail must match; return the captured group `f`. -/
def pySearchFunc : List Char → Option (List Char)
  | [] => none
  | c :: rest =>
    match (if litFn.isPrefixOf (c :: rest) then matchAfterLiteral ((c :: rest).drop litFn.length) else none) with
    | some f => some f
    | none => pySearchFunc rest

/-- `re.search` of the function-call pattern over a `String`,
returning the captured group. -/
def pySearchFuncStr (s : String) : Option String :=
  (pySearchFunc s.toList).map (fun f => ⟨f⟩)

/-! ## Streaming response classifier (`generate_stream` in inference.py).

A yielded response dict is modelled by `StreamResponse`.  The `delta` dict
always carries `role = "assistant"`; `content` is `none` when the key is
absent and `some v` when the key is present with value `v` (Python `None`
becomes `some none`); `function_call` likewise holds the `(name, arguments)`
pair when present (`name` is the `func_name` variable, an optional string). -/

structure StreamDelta where
  role : String
  content : Option (Option String)
  function_call : Option (Option String × String)
deriving DecidableEq

structure StreamResponse where
  delta : StreamDelta
  finish_reason : Option String
deriving DecidableEq

/-- The loop body of `generate_stream`: fold over the `(item, finish_reason)`
pairs coming from `generate_text_stream`, carrying `cur_text`, `func_name`
and `response_type` (Python `None`/`"function"`/`"text"`). -/
def generate_stream_go : List (String × Option String) → String → Option String → Option String → List StreamResponse
  | [], _, _, _ => []
  | (item, fin) :: rest, cur_text0, func_name, response_type =>
    let cur_text := cur_text0 ++ item
    match response_type with
    | none =>
      if pyLstripStr cur_text = ":\n" then
        ⟨⟨"assistant", some (some ""), none⟩, none⟩ ::
          generate_stream_go rest cur_text func_name (some "text")
      else
        match pySearchFuncStr (pyStripStr cur_text) with
        | some f =>
          ⟨⟨"assistant", some none, some (some (pyStripStr f), "")⟩, none⟩ ::
            generate_stream_go rest cur_text (some (pyStripStr f)) (some "function")
        | none => generate_stream_go rest cur_text func_name none
    | some rt =>
      if rt = "function" then
        (match fin with
         | none => (⟨⟨"assistant", none, some (func_name, item)⟩, none⟩ : StreamResponse)
         | some _ => ⟨⟨"assistant", none, none⟩, some "function_call"⟩) ::
          generate_stream_go rest cur_text func_name (some rt)
      else if rt = "text" then
        (match fin with
         | none => (⟨⟨"assistant", some (some item), none⟩, none⟩ : StreamResponse)
         | some fr => ⟨⟨"assistant", none, none⟩, some fr⟩) ::
          generate_stream_go rest cur_text func_name (some rt)
      else
        generate_stream_go rest cur_text func_name (some rt)

/-- `generate_stream`: classify the increments of one decode session into
typed deltas.  Initial state: empty accumulated text, no function name,
undetermined response type. -/
def generate_stream (items : List (String × Option String)) : List StreamResponse :=
  generate_stream_go items "" none none

/-- Accumulated text after the first `k` increments of a session
(concatenation of the item strings). -/
def accText : List (String × Option String) → Nat → String
  | _, 0 => ""
  | [], _ + 1 => ""
  | (s, _) :: rest, k + 1 => s ++ accText rest k

/-! ## Autoregressive decode loop (`generate_text_stream` in inference.py).

The model and tokenizer are external; the loop is abstracted over
`nextTok i` (the token sampled at step `i`) and `incText i` (the suffix
difference of successive full decodes computed at step `i`).  The loop runs
for at most `max_new_tokens` steps; at each step the text increment is
computed, then the stop check runs and breaks out of the loop before the
yield, so the stop step's increment is never yielded; otherwise
`(increment, None)` is yielded.  After the loop a sentinel
`("", finish_reason)` is yielded, where the finish reason is `"stop"` when a
stop token was produced and the literal `"lenghth"` (sic, as written in the
source) when the step budget ran out. -/

/-- The `for i in range(max_new_tokens)` loop: first component is the list
of yielded pairs, second is the `reach_stop_token` flag.  The first `Nat`
argument is the number of remaining steps, the second the current step
index `i`. -/
def decodeSteps (nextTok : Nat → Int) (incText : Nat → String) (stop_token_ids : List Int) :
    Nat → Nat → List (String × Option String) × Bool
  | 0, _ => ([], false)
  | n + 1, i =>
    if nextTok i ∈ stop_token_ids then ([], true)
    else
      let rest := decodeSteps nextTok incText stop_token_ids n (i + 1)
      ((incText i, none) :: rest.1, rest.2)

/-- `generate_text_stream`: all pairs yielded by one decode session,
ending with the sentinel pair that carries the finish reason. -/
def generate_text_stream (nextTok : Nat → Int) (incText : Nat → String)
    (stop_token_ids : List Int) (max_new_tokens : Nat) : List (String × Option String) :=
  let run := decodeSteps nextTok incText stop_token_ids max_new_tokens 0
  run.1 ++ [("", some (if run.2 then "stop" else "lenghth"))]

/-! ## Label masking engine (`get_masked_labels` in custom_datasets.py).

The assistant prefix patterns (from `get_prefix_assistant_token_ids`) and
the two closing marker token ids (`endtoken_2_id[EndToken.assistant]`,
`endtoken_2_id[EndToken.function_call]`) come from the external tokenizer
and the `functionary.prompt` module; they are parameters here
(`pattern_list` and `end_ids`). -/

/-- `get_matching_prefix`: return the first pattern in list order that is an
initial segment of `sequence_ids` (the source checks the length and then
slice equality). -/
def get_matching_prefix_ids : List (List Int) → List Int → Option (List Int)
  | [], _ => none
  | p :: rest, sequence_ids =>
    if p.length ≤ sequence_ids.length then
      if sequence_ids.take p.length = p then some p
      else get_matching_prefix_ids rest sequence_ids
    else get_matching_prefix_ids rest sequence_ids

/-- The inner `for i in range(start, total)` search for the first closing
marker token at or after `start` (`end_index` in the source; `none` models
`end_index == -1`). -/
def find_end_index (ids : List Int) (end_ids : List Int) (start : Nat) : Option Nat :=
  ((ids.drop start).findIdx? (fun t => end_ids.contains t)).map (fun k => start + k)

/-- The effect of the unmasking writes `labels[i] = input_token_ids[i]` for
`i` in `[a, b)`: positions outside the range keep their previous label. -/
def unmaskFromTo (ids labels : List Int) (a b : Nat) : List Int :=
  (List.range labels.length).map
    (fun i => if a ≤ i ∧ i < b then ids.getD i (labels.getD i 0) else labels.getD i 0)

/-- The `while index < total_input_leng` scan of `get_masked_labels`.
`fuel` bounds the number of loop iterations; since the scan index strictly
increases on every iteration whenever all patterns are non-empty, a fuel of
`ids.length + 1` is never exhausted on such inputs.  On a pattern match the
span is unmasked up to and including the first closing marker and the scan
resumes at that marker's position (`index = end_index`); if no closing
marker exists the tail is unmasked and the loop breaks (truncation). -/
def scanLabels (pattern_list : List (List Int)) (end_ids : List Int) (ids : List Int) :
    Nat → Nat → List Int → List Int
  | 0, _, labels => labels
  | fuel + 1, index, labels =>
    if index < ids.length then
      match get_matching_prefix_ids pattern_list (ids.drop index) with
      | some p =>
        match find_end_index ids end_ids (index + p.length) with
        | some e => scanLabels pattern_list end_ids ids fuel e (unmaskFromTo ids labels (index + p.length) (e + 1))
        | none => unmaskFromTo ids labels (index + p.length) ids.length
      | none => scanLabels pattern_list end_ids ids fuel (index + 1) labels
    else labels

/-- `get_masked_labels`: labels start at the sentinel `-100` everywhere and
assistant spans are unmasked by the scan. -/
def get_masked_labels (pattern_list : List (List Int)) (end_ids : List Int) (ids : List Int) : List Int :=
  scanLabels pattern_list end_ids ids (ids.length + 1) 0 (List.replicate ids.length (-100))

/-! ## Sequence packer (`merge_data_points_by_length` in custom_datasets.py). -/

/-- Python `enumerate`: pair each element with its index, starting at `n`
(the source builds `{"length": length, "index": i}` records). -/
def enumFromIdx : Nat → List Nat → List (Nat × Nat)
  | _, [] => []
  | n, x :: xs => (n, x) :: enumFromIdx (n + 1) xs

/-- Insertion step of a stable sort on the `index` field
(`sorted(items, key=lambda x: x["index"])`). -/
def insertByIdx (p : Nat × Nat) : List (Nat × Nat) → List (Nat × Nat)
  | [] => [p]
  | q :: qs => if p.1 ≤ q.1 then p :: q :: qs else q :: insertByIdx p qs

/-- Stable sort of the item records by their `index` field. -/
def sortByIdx (l : List (Nat × Nat)) : List (Nat × Nat) := l.foldr insertByIdx []

/-- The `for i in range(len(items))` loop of `merge_data_points_by_length`:
the loop counter `i` is appended to `current_list`; on overflow the current
group (possibly empty, when the very first item overflows) is closed and a
new group `[i]` is started; after the loop a non-empty current group is
closed. -/
def mergeLoop (max_length : Nat) : List (Nat × Nat) → Nat → Nat → List Nat → List (List Nat) → List (List Nat)
  | [], _, _, current_list, merges =>
    if current_list.length > 0 then merges ++ [current_list] else merges
  | item :: rest, i, current_sum, current_list, merges =>
    if item.2 + current_sum ≤ max_length then
      mergeLoop max_length rest (i + 1) (current_sum + item.2) (current_list ++ [i]) merges
    else
      mergeLoop max_length rest (i + 1) item.2 [i] (merges ++ [current_list])

/-- `merge_data_points_by_length`: enumerate the lengths, (stably) sort the
records by index, run the greedy loop, and translate each group of loop
positions back through the sorted records' `index` fields. -/
def merge_data_points_by_length (lengths : List Nat) (max_length : Nat) : List (List Nat) :=
  let items := sortByIdx (enumFromIdx 0 lengths)
  let merges := mergeLoop max_length items 0 0 [] []
  merges.map (fun g => g.map (fun idx => (items.getD idx (0, 0)).1))

/-- Modelled from the spec (§4.3 and the claim's wording, for comparison
with `merge_data_points_by_length`): iterate lengths in original order,
append the next index to the current group while
`running_sum + next_length ≤ capacity`, otherwise close the group and start
a new one with that index. -/
def greedySpecLoop (capacity : Nat) : List Nat → Nat → Nat → List Nat → List (List Nat) → List (List Nat)
  | [], _, _, current, closed =>
    if current.length > 0 then closed ++ [current] else closed
  | l :: rest, i, running, current, closed =>
    if running + l ≤ capacity then
      greedySpecLoop capacity rest (i + 1) (running + l) (current ++ [i]) closed
    else
      greedySpecLoop capacity rest (i + 1) l [i] (closed ++ [current])

/-- The greedy order-preserving packing described by the specification. -/
def greedySpecPack (lengths : List Nat) (capacity : Nat) : List (List Nat) :=
  greedySpecLoop capacity lengths 0 0 [] []

/-! ## Attention block builder (`get_causal_mask`,
`create_mask_from_lengths` in custom_datasets.py).

Matrices are embedded as functions `Nat → Nat → Int` (entries of the
`max_length × max_length` tensor); the fill value `m` abstracts
`float("-inf")`. -/

/-- `get_causal_mask`: `masked_fill_` opens entry `(i, j)` iff `j < i + 1`. -/
def get_causal_mask (m : Int) (i j : Nat) : Int :=
  if j < i + 1 then 0 else m

/-- The `for length in lengths` loop writing each causal block
`result[acc : acc+L, acc : acc+L] = get_causal_mask(L)` over the function
`f` built so far (`acc` is the running `acc_leng`). -/
def fillBlocks (m : Int) : List Nat → Nat → (Nat → Nat → Int) → Nat → Nat → Int
  | [], _, f => f
  | l :: rest, acc, f =>
    fillBlocks m rest (acc + l)
      (fun i j =>
        if acc ≤ i ∧ i < acc + l ∧ acc ≤ j ∧ j < acc + l then
          get_causal_mask m (i - acc) (j - acc)
        else f i j)

/-- Cumulative offset of segment `k` (sum of the lengths before it). -/
def segStart : List Nat → Nat → Nat
  | _, 0 => 0
  | [], _ + 1 => 0
  | l :: rest, k + 1 => l + segStart rest k

/-- `create_mask_from_lengths`: start from a full-`m` matrix, write the
causal blocks, then (when `pad_length > 0`) set the last `pad_length` rows
to `0` and afterwards the last `pad_length` columns to `m` — the column
write is last, so it wins on the bottom-right corner. -/
def create_mask_from_lengths (lengths : List Nat) (max_length : Nat) (m : Int) : Nat → Nat → Int :=
  let blocks := fillBlocks m lengths 0 (fun _ _ => m)
  let pad := max_length - lengths.sum
  fun i j =>
    if 0 < pad ∧ max_length - pad ≤ j then m
    else if 0 < pad ∧ max_length - pad ≤ i then 0
    else blocks i j

/-! ## Packed-group concatenation and padding (`merge_data_points`). -/

/-- The `input_ids` built by `merge_data_points`: concatenate the
data points' token lists, then pad with `pad_token_id` to `max_length` —
on the right when `tokenizer.padding_side == "right"`, on the left
otherwise. -/
def merge_data_points_tokens (padding_side_right : Bool) (pad_id : Int)
    (max_length : Nat) (data_points : List (List Int)) : List Int :=
  let input_ids := data_points.flatten
  let pad_leng := max_length - input_ids.length
  if padding_side_right then input_ids ++ List.replicate pad_leng pad_id
  else List.replicate pad_leng pad_id ++ input_ids

/-! ## Dataset cache decisions (`CachedDataset.__init__`,
`PackedDataset.is_loadable_cached`, `PackedDataset.load`,
`CustomDataset.load` in custom_datasets.py). -/

/-- `PackedDataset.is_loadable_cached`: the cache is loadable iff the
cached `max_length` is at least the tokenizer's current
`model_max_length`. -/
def is_loadable_cached (cached_max_length model_max_length : Nat) : Bool :=
  if model_max_length ≤ cached_max_length then true else false

/-- The load decision of `PackedDataset.__init__`: the cached folder is
given (`cached_path is not None`), `inputs.jsonl` exists, caching is not
ignored, and `is_loadable_cached` accepts the sidecar's `max_length`. -/
def packedDataset_init_loads (cached_path_some file_exists ignore_cached : Bool)
    (cached_max_length model_max_length : Nat) : Bool :=
  if cached_path_some && file_exists && !ignore_cached then
    is_loadable_cached cached_max_length model_max_length
  else false

/-- The load decision of `CachedDataset.__init__` (inherited by
`CustomDataset`): load whenever the folder is given, `inputs.jsonl` exists
and caching is not ignored — the meta-info sidecar is never consulted. -/
def cachedDataset_init_loads (cached_folder_some file_exists ignore_cached : Bool) : Bool :=
  cached_folder_some && file_exists && !ignore_cached

/-- Per-array transform of `PackedDataset.load`:
`item[key][: self.tokenizer.model_max_length]`. -/
def packedDataset_load_truncate (model_max_length : Nat) (arr : List Int) : List Int :=
  arr.take model_max_length

/-- Per-array transform of `CustomDataset.load`: `torch.tensor(item[key])`,
no truncation. -/
def customDataset_load_item (arr : List Int) : List Int := arr

/-! ## Theorems -/

/-- C2 is refuted at the concrete increment sequence it describes: when the
increments are exactly `"to=functions.get_weather:\n{\"city\":"`, then
`"\"NYC\"}"`, then `""` with finish reason `"stop"`, the classifier emits
only three deltas — the argument text `"{\"city\":"` that arrived in the
same increment that completed the pattern is never re-emitted as an
arguments-delta — whereas the claim demands the four-delta sequence. -/
theorem claim_C2_counterexample :
    generate_stream
        [("to=functions.get_weather:\n\x7b\"city\":", none), ("\"NYC\"\x7d", none), ("", some "stop")] =
      [⟨⟨"assistant", some none, some (some "get_weather", "")⟩, none⟩,
       ⟨⟨"assistant", none, some (some "get_weather", "\"NYC\"\x7d")⟩, none⟩,
       ⟨⟨"assistant", none, none⟩, some "function_call"⟩] ∧
    generate_stream
        [("to=functions.get_weather:\n\x7b\"city\":", none), ("\"NYC\"\x7d", none), ("", some "stop")] ≠
      [⟨⟨"assistant", some none, some (some "get_weather", "")⟩, none⟩,
       ⟨⟨"assistant", none, some (some "get_weather", "\x7b\"city\":")⟩, none⟩,
       ⟨⟨"assistant", none, some (some "get_weather", "\"NYC\"\x7d")⟩, none⟩,
       ⟨⟨"assistant", none, none⟩, some "function_call"⟩] := by
  constructor
  · rfl
  · decide

/-- C2 amended: the claimed four-delta sequence (open-function with name
`get_weather` and empty arguments, arguments-delta `"{\"city\":"`,
arguments-delta `"\"NYC\"}"`, close forced to `"function_call"`) is emitted
when the pattern-completing increment carries no argument text, i.e. for
the split `"to=functions.get_weather:\n"`, `"{\"city\":"`, `"\"NYC\"}"`,
`""` with underlying finish reason `"stop"`. -/
theorem claim_C2_amended :
    generate_stream
        [("to=functions.get_weather:\n", none), ("\x7b\"city\":", none),
         ("\"NYC\"\x7d", none), ("", some "stop")] =
      [⟨⟨"assistant", some none, some (some "get_weather", "")⟩, none⟩,
       ⟨⟨"assistant", none, some (some "get_weather", "\x7b\"city\":")⟩, none⟩,
       ⟨⟨"assistant", none, some (some "get_weather", "\"NYC\"\x7d")⟩, none⟩,
       ⟨⟨"assistant", none, none⟩, some "function_call"⟩] := by
  rfl

/-- C5: the code bug evaluated.  In a session that exhausts its two-step
budget without producing a stop token, the final yielded element is the
sentinel `("", "lenghth")` — the source's misspelling — and not the
`("", "length")` the claim (and the delta protocol of the spec) requires;
all earlier elements carry finish reason `None` and the stop-terminated
session does end with `("", "stop")`. -/
theorem claim_C5_code_bug_eval :
    generate_text_stream (fun _ => 0) (fun _ => "x") [1] 2 =
      [("x", none), ("x", none), ("", some "lenghth")] ∧
    generate_text_stream (fun i => if i = 1 then 7 else 0) (fun _ => "y") [7] 3 =
      [("y", none), ("", some "stop")] ∧
    ("lenghth" : String) ≠ "length" := by
  refine ⟨rfl, rfl, ?_⟩
  decide

/-- C6 is refuted on the `CachedDataset` load path (inherited by
`CustomDataset`, whose cited `load` does not consult the sidecar either):
with the folder present, caching not ignored, a cached `max_length` of `5`
and a requested `max_length` of `10`, the cache is loaded even though
`5 ≥ 10` fails — the claimed reuse-iff-validity equivalence is false. -/
theorem claim_C6_counterexample :
    ¬ ((cachedDataset_init_loads true true false = true) ↔ 10 ≤ 5) := by
  decide

/-- C6 amended: the claimed behaviour holds for `PackedDataset`: its
`__init__` loads the cache iff the folder is given, `inputs.jsonl` exists,
caching is not ignored and the cached `max_length` is at least the
requested one, and its `load` truncates every persisted array to the
requested `max_length`; the `CachedDataset`/`CustomDataset` path performs
no such validation. -/
theorem claim_C6_amended :
    (∀ (e ig : Bool) (cmax rmax : Nat),
      packedDataset_init_loads true e ig cmax rmax = true ↔
        (e = true ∧ ig = false ∧ rmax ≤ cmax)) ∧
    (∀ (rmax : Nat) (arr : List Int),
      (packedDataset_load_truncate rmax arr).length = min rmax arr.length ∧
      ∀ i, i < (packedDataset_load_truncate rmax arr).length →
        (packedDataset_load_truncate rmax arr).getD i 0 = arr.getD i 0) := by
  constructor
  · intro e ig cmax rmax
    cases e <;> cases ig <;>
      simp [packedDataset_init_loads, is_loadable_cached]
  · intro rmax arr
    refine ⟨List.length_take .., ?_⟩
    intro i hi
    simp only [packedDataset_load_truncate, List.length_take] at hi ⊢
    rw [List.getD_eq_getElem?_getD, List.getD_eq_getElem?_getD,
      List.getElem?_take_of_lt (lt_of_lt_of_le hi (min_le_left ..))]

/-- C3 is refuted at lengths `[1]`, capacity `2`, fill `-1`: row `1` is a
padding row (row index at or beyond the sum of lengths), but it is not
entirely `0` — the final padding-column write puts the fill value into the
pad-row/pad-column corner, so entry `(1,1)` is `-1`. -/
theorem claim_C3_counterexample :
    ¬ (∀ j, j < 2 → create_mask_from_lengths [1] 2 (-1) 1 j = 0) := by
  decide

/-- C7 is refuted at lengths `[11]`, capacity `10`: the packer returns the
group `[0]` whose member length `11` exceeds the capacity (a sequence
longer than the capacity becomes an oversized singleton group; the packer
contains no assertion and produces it). -/
theorem claim_C7_counterexample :
    ¬ (∀ g ∈ merge_data_points_by_length [11] 10,
        (g.map (fun idx => ([11] : List Nat).getD idx 0)).sum ≤ 10) := by
  decide

/-- C8 is refuted when `tokenizer.padding_side` is not `"right"`: packing
one token-list `[5]` into capacity `2` with pad id `99` pads the tokens on
the left (`[99, 5]`), while the mask built by `create_mask_from_lengths`
always pads trailing — column `0` (a pad-token position) is open at `(0,0)`
and column `1` (the real token's position) is entirely forbidden — so the
claimed index-region agreement fails for this `padding_side`. -/
theorem claim_C8_counterexample :
    ¬ (∀ j, j < 2 →
        (((merge_data_points_tokens false 99 2 [[5]]).getD j 0 = 99) ↔
          (∀ i, i < 2 → create_mask_from_lengths [1] 2 (-1) i j = -1))) := by
  decide

/-- C9 is refuted: in a session whose accumulated text never equals `":\n"`
and never contains the function-call pattern, the classifier emits nothing
at all — in particular it does not emit a final closing delta carrying the
decode loop's finish reason, contrary to the claim. -/
theorem claim_C9_counterexample :
    generate_stream [("garbage", none), ("", some "stop")] = [] ∧
    ¬ (∃ r, r ∈ generate_stream [("garbage", none), ("", some "stop")] ∧
        r.finish_reason = some "stop") := by
  constructor
  · rfl
  · decide

/-- Helper: a decode run whose first stop token appears at relative step `k`
(within the remaining budget) yields exactly the increments of the earlier
steps and reports that a stop token was reached; the stop step's increment
is not in the list. -/
theorem decodeSteps_first_stop (nextTok : Nat → Int) (incText : Nat → String)
    (stop_token_ids : List Int) :
    ∀ (k n i : Nat), k < n →
      (∀ j, j < k → nextTok (i + j) ∉ stop_token_ids) →
      nextTok (i + k) ∈ stop_token_ids →
      decodeSteps nextTok incText stop_token_ids n i =
        ((List.range k).map (fun j => (incText (i + j), none)), true) := by
  intro k
  induction k with
  | zero =>
    intro n i hn _ hstop
    match n, hn with
    | n + 1, _ =>
      simp only [decodeSteps]
      rw [if_pos (by simpa using hstop)]
      simp
  | succ k ih =>
    intro n i hn hpre hstop
    match n, hn with
    | n + 1, hn =>
      have h0 : nextTok i ∉ stop_token_ids := by
        have := hpre 0 (Nat.succ_pos k)
        simpa using this
      simp only [decodeSteps]
      rw [if_neg h0]
      have hrec := ih n (i + 1) (Nat.lt_of_succ_lt_succ hn)
        (fun j hj => by
          have := hpre (j + 1) (Nat.succ_lt_succ hj)
          simpa [Nat.add_assoc, Nat.add_comm 1 j] using this)
        (by simpa [Nat.add_assoc, Nat.add_comm 1 k] using hstop)
      rw [hrec]
      apply congrArg₂ Prod.mk ?_ rfl
      rw [List.range_succ_eq_map, List.map_cons, List.map_map]
      apply congrArg₂ List.cons (by simp) ?_
      apply List.map_congr_left
      intro a _
      simp [Function.comp, Nat.add_assoc, Nat.add_comm 1 a]

/-- C10: in a decode session of `generate_text_stream` that terminates
because the token produced at step `k` is a stop token (all earlier steps
producing non-stop tokens), the yielded sequence is exactly the increments
of steps `0..k-1` (each with finish reason `None`) followed by the sentinel
`("", "stop")`: the loop exits before yielding the stop step's pair, so the
text increment computed at the stop-token step is dropped from the
stream. -/
theorem claim_C10 (nextTok : Nat → Int) (incText : Nat → String)
    (stop_token_ids : List Int) (max_new_tokens k : Nat)
    (hk : k < max_new_tokens)
    (hpre : ∀ j, j < k → nextTok j ∉ stop_token_ids)
    (hstop : nextTok k ∈ stop_token_ids) :
    generate_text_stream nextTok incText stop_token_ids max_new_tokens =
      (List.range k).map (fun j => (incText j, none)) ++ [("", some "stop")] := by
  unfold generate_text_stream
  rw [decodeSteps_first_stop nextTok incText stop_token_ids k max_new_tokens 0 hk
    (fun j hj => by simpa using hpre j hj) (by simpa using hstop)]
  simp

/-- C10 witness: a concrete session stopping at step 1 of a 3-step budget
yields only step 0's increment and the sentinel. -/
theorem claim_C10_witness :
    generate_text_stream (fun i => if i = 1 then 7 else 0) (fun _ => "t") [7] 3 =
      (List.range 1).map (fun _ => ("t", none)) ++ [("", some "stop")] :=
  claim_C10 (fun i => if i = 1 then 7 else 0) (fun _ => "t") [7] 3 1
    (by decide) (by decide) (by decide)

/-- Helper: reading a position below the length of `labels` out of
`unmaskFromTo`. -/
theorem unmaskFromTo_getD (ids labels : List Int) (a b i : Nat) (h : i < labels.length) :
    (unmaskFromTo ids labels a b).getD i 0 =
      if a ≤ i ∧ i < b then ids.getD i (labels.getD i 0) else labels.getD i 0 := by
  unfold unmaskFromTo
  rw [List.getD_eq_getElem?_getD, List.getElem?_map, List.getElem?_range h]
  rfl

/-- Helper: when the scan of `get_masked_labels` stands at a position where
one of the assistant prefix patterns matches and no closing marker token
occurs anywhere after the matched prefix, the result (for any remaining
fuel) is exactly the input labels with the whole tail `[index + |p|, len)`
unmasked: the trailing partial span is unmasked and the scan terminates
without any further matching. -/
theorem scanLabels_truncated_tail (pattern_list : List (List Int))
    (end_ids ids labels : List Int) (index n : Nat) (p : List Int)
    (hidx : index < ids.length)
    (hm : get_matching_prefix_ids pattern_list (ids.drop index) = some p)
    (hno : ∀ t ∈ ids.drop (index + p.length), t ∉ end_ids) :
    scanLabels pattern_list end_ids ids (n + 1) index labels =
      unmaskFromTo ids labels (index + p.length) ids.length := by
  have hfind : find_end_index ids end_ids (index + p.length) = none := by
    unfold find_end_index
    rw [List.findIdx?_eq_none_iff.mpr]
    · rfl
    · intro x hx
      simpa using hno x hx
  simp only [scanLabels, hidx, if_true, hm, hfind]

/-- C1: if the scan of the Label Masking Engine reaches a position where an
assistant-span prefix pattern matches and no end-of-assistant-turn or
end-of-function-call-turn marker token occurs between the end of the
matched prefix and the end of the sequence, then (1) the engine returns the
current labels with every position from the end of the matched prefix to
the end of the sequence unmasked and performs no further prefix matching
(the result is independent of the remaining fuel), (2) the label at each of
those positions equals the token id there, and (3) in particular when the
match is at position 0, `get_masked_labels` returns the initial all-`-100`
labels with the whole tail from the end of the prefix unmasked. -/
theorem claim_C1 (pattern_list : List (List Int)) (end_ids ids labels : List Int)
    (index n : Nat) (p : List Int)
    (hidx : index < ids.length)
    (hm : get_matching_prefix_ids pattern_list (ids.drop index) = some p)
    (hno : ∀ t ∈ ids.drop (index + p.length), t ∉ end_ids) :
    scanLabels pattern_list end_ids ids (n + 1) index labels =
      unmaskFromTo ids labels (index + p.length) ids.length ∧
    (labels.length = ids.length →
      ∀ i, index + p.length ≤ i → i < ids.length →
        (scanLabels pattern_list end_ids ids (n + 1) index labels).getD i 0 = ids.getD i 0) ∧
    (index = 0 →
      get_masked_labels pattern_list end_ids ids =
        unmaskFromTo ids (List.replicate ids.length (-100)) p.length ids.length) := by
  refine ⟨scanLabels_truncated_tail pattern_list end_ids ids labels index n p hidx hm hno,
    ?_, ?_⟩
  · intro hlen i hi1 hi2
    rw [scanLabels_truncated_tail pattern_list end_ids ids labels index n p hidx hm hno]
    rw [unmaskFromTo_getD ids labels (index + p.length) ids.length i (hlen ▸ hi2)]
    rw [if_pos ⟨hi1, hi2⟩]
    simp only [List.getD_eq_getElem?_getD, List.getElem?_eq_getElem hi2]
    rfl
  · intro h0
    subst h0
    unfold get_masked_labels
    have := scanLabels_truncated_tail pattern_list end_ids ids
      (List.replicate ids.length (-100)) 0 ids.length p hidx hm hno
    simpa using this

/-- C1 witness: pattern `[1, 2]` matches `[1, 2, 3, 4]` at position 0, no
closing marker (`9`) occurs afterwards; the engine unmasks positions 2 and
3 and stops. -/
theorem claim_C1_witness :
    get_masked_labels [[1, 2]] [9] [1, 2, 3, 4] =
      unmaskFromTo [1, 2, 3, 4] (List.replicate 4 (-100)) 2 4 :=
  (claim_C1 [[1, 2]] [9] [1, 2, 3, 4] (List.replicate 4 (-100)) 0 4 [1, 2]
    (by decide) (by decide) (by decide)).2.2 rfl

/-- Helper: once in the undetermined state, a session whose accumulated
text (current buffer plus each further accumulation prefix) never equals
`":\n"` after left-trimming and never contains the function-call pattern
stays undetermined and emits nothing. -/
theorem generate_stream_go_undetermined_empty :
    ∀ (items : List (String × Option String)) (cur : String) (fn : Option String),
      (∀ k, k < items.length + 1 → 1 ≤ k →
        pyLstripStr (cur ++ accText items k) ≠ ":\n" ∧
        pySearchFuncStr (pyStripStr (cur ++ accText items k)) = none) →
      generate_stream_go items cur fn none = [] := by
  intro items
  induction items with
  | nil => intro cur fn _; rfl
  | cons hd rest ih =>
    intro cur fn h
    match hd with
    | (item, fin) =>
      have h1 := h 1 (by simp only [List.length_cons]; omega) (by omega)
      have hacc : accText ((item, fin) :: rest) 1 = item := by
        simp [accText]
      rw [hacc] at h1
      show (if pyLstripStr (cur ++ item) = ":\n" then _ else _) = _
      rw [if_neg h1.1, h1.2]
      apply ih (cur ++ item) fn
      intro k hk hk1
      have hk2 := h (k + 1) (by simpa using hk) (by omega)
      have hacc2 : accText ((item, fin) :: rest) (k + 1) = item ++ accText rest k := rfl
      rw [hacc2, ← String.append_assoc] at hk2
      exact hk2

/-- C9 amended: in every streaming session whose accumulated left-trimmed
text never equals `":\n"` and never contains the `to=functions.<name>:`
pattern, the classifier emits no deltas at all — no content or arguments
delta, and (contrary to the original claim) no final closing delta
either. -/
theorem claim_C9_amended (items : List (String × Option String))
    (h : ∀ k, k < items.length + 1 → 1 ≤ k →
      pyLstripStr (accText items k) ≠ ":\n" ∧
      pySearchFuncStr (pyStripStr (accText items k)) = none) :
    generate_stream items = [] := by
  unfold generate_stream
  apply generate_stream_go_undetermined_empty items "" none
  intro k hk hk1
  rw [String.empty_append]
  exact h k hk hk1

/-- C9 witness: a concrete degenerate session — `"garbage"` then the
sentinel increment — satisfies the hypotheses and produces no deltas. -/
theorem claim_C9_witness :
    generate_stream [("garbage", none), ("", some "stop")] = [] :=
  claim_C9_amended [("garbage", none), ("", some "stop")] (by decide)

/-- Helper: the stable sort by the `index` field is the identity on an
enumeration (whose index keys are already strictly increasing). -/
theorem sortByIdx_enumFromIdx : ∀ (xs : List Nat) (n : Nat),
    sortByIdx (enumFromIdx n xs) = enumFromIdx n xs := by
  intro xs
  induction xs with
  | nil => intro n; rfl
  | cons x xs ih =>
    intro n
    have hstep : sortByIdx (enumFromIdx n (x :: xs)) =
        insertByIdx (n, x) (sortByIdx (enumFromIdx (n + 1) xs)) := rfl
    rw [hstep, ih (n + 1)]
    cases xs with
    | nil => rfl
    | cons y ys =>
      show insertByIdx (n, x) ((n + 1, y) :: enumFromIdx (n + 2) ys) = _
      simp only [insertByIdx]
      rw [if_pos (by omega : ((n, x) : Nat × Nat).1 ≤ ((n + 1, y) : Nat × Nat).1)]
      rfl

/-- Helper: the source loop over the enumerated records computes the same
groups of loop positions as the specification's greedy loop over the raw
lengths (the records' `length` field is the raw length; the guard
`cur_length + current_sum` equals `running_sum + next_length`). -/
theorem mergeLoop_eq_spec (cap : Nat) : ∀ (xs : List Nat) (n i s : Nat)
    (c : List Nat) (m : List (List Nat)),
    mergeLoop cap (enumFromIdx n xs) i s c m = greedySpecLoop cap xs i s c m := by
  intro xs
  induction xs with
  | nil => intro n i s c m; rfl
  | cons x xs ih =>
    intro n i s c m
    simp only [enumFromIdx, mergeLoop, greedySpecLoop]
    rw [Nat.add_comm x s]
    split_ifs with hc
    · exact ih (n + 1) (i + 1) (s + x) (c ++ [i]) m
    · exact ih (n + 1) (i + 1) x [i] (m ++ [c])

/-- Helper: every index appearing in a group produced by the greedy loop is
below the starting position plus the number of consumed lengths. -/
theorem greedySpecLoop_mem_lt (cap : Nat) : ∀ (xs : List Nat) (i s : Nat)
    (c : List Nat) (m : List (List Nat)),
    (∀ g ∈ m, ∀ a ∈ g, a < i) → (∀ a ∈ c, a < i) →
    ∀ g ∈ greedySpecLoop cap xs i s c m, ∀ a ∈ g, a < i + xs.length := by
  intro xs
  induction xs with
  | nil =>
    intro i s c m hm hc g hg a ha
    simp only [greedySpecLoop] at hg
    split_ifs at hg with h0
    · rcases List.mem_append.mp hg with h | h
      · simpa using hm g h a ha
      · have : g = c := by simpa using h
        subst this
        simpa using hc a ha
    · simpa using hm g hg a ha
  | cons x xs ih =>
    intro i s c m hm hc g hg a ha
    simp only [greedySpecLoop] at hg
    have hlen : i + (x :: xs).length = (i + 1) + xs.length := by
      simp [List.length_cons]; omega
    rw [hlen]
    split_ifs at hg with hcap
    · refine ih (i + 1) (s + x) (c ++ [i]) m
        (fun g' hg' a' ha' => Nat.lt_succ_of_lt (hm g' hg' a' ha')) ?_ g hg a ha
      intro a' ha'
      rcases List.mem_append.mp ha' with h | h
      · exact Nat.lt_succ_of_lt (hc a' h)
      · have : a' = i := by simpa using h
        omega
    · refine ih (i + 1) x [i] (m ++ [c]) ?_ ?_ g hg a ha
      · intro g' hg' a' ha'
        rcases List.mem_append.mp hg' with h | h
        · exact Nat.lt_succ_of_lt (hm g' h a' ha')
        · have : g' = c := by simpa using h
          subst this
          exact Nat.lt_succ_of_lt (hc a' ha')
      · intro a' ha'
        have : a' = i := by simpa using ha'
        omega

/-- Helper: the `index` field of the `idx`-th enumerated record is
`n + idx`. -/
theorem enumFromIdx_getD_fst : ∀ (xs : List Nat) (n idx : Nat), idx < xs.length →
    ((enumFromIdx n xs).getD idx (0, 0)).1 = n + idx := by
  intro xs
  induction xs with
  | nil => intro n idx h; simp at h
  | cons x xs ih =>
    intro n idx h
    cases idx with
    | zero => rfl
    | succ k =>
      show ((enumFromIdx (n + 1) xs).getD k (0, 0)).1 = n + (k + 1)
      rw [ih (n + 1) k (by simpa using Nat.lt_of_succ_lt_succ h)]
      omega

/-- Helper: `merge_data_points_by_length` computes exactly the greedy
order-preserving packing described by the specification. -/
theorem merge_eq_greedySpecPack (lengths : List Nat) (cap : Nat) :
    merge_data_points_by_length lengths cap = greedySpecPack lengths cap := by
  unfold merge_data_points_by_length greedySpecPack
  simp only [sortByIdx_enumFromIdx, mergeLoop_eq_spec]
  have hb := greedySpecLoop_mem_lt cap lengths 0 0 [] []
    (by simp) (by simp)
  conv_rhs => rw [← List.map_id (greedySpecLoop cap lengths 0 0 [] [])]
  apply List.map_congr_left
  intro g hg
  have : g.map (fun idx => ((enumFromIdx 0 lengths).getD idx (0, 0)).1) = g.map id := by
    apply List.map_congr_left
    intro a ha
    have halt : a < lengths.length := by simpa using hb g hg a ha
    rw [enumFromIdx_getD_fst lengths 0 a halt]
    simp
  rw [this, List.map_id, id]

/-- C4: the bin-packer is exactly the greedy, order-preserving, single-pass
grouping described by the claim (iterate lengths in original order, append
the next index while `running_sum + next_length ≤ capacity`, otherwise
close the group and start a new one with that index), and on lengths
`[5,5,5,7]` with capacity `10` it returns `[[0,1],[2],[3]]`. -/
theorem claim_C4 :
    (∀ (lengths : List Nat) (capacity : Nat),
      merge_data_points_by_length lengths capacity = greedySpecPack lengths capacity) ∧
    merge_data_points_by_length [5, 5, 5, 7] 10 = [[0, 1], [2], [3]] :=
  ⟨merge_eq_greedySpecPack, by decide⟩

/-- Helper: capacity invariant of the greedy loop — every closed group with
at least two members has total length at most the capacity (a singleton
group is created unconditionally and may exceed it). -/
theorem greedySpecLoop_cap_invariant (lengths : List Nat) (cap : Nat) :
    ∀ (xs : List Nat) (i s : Nat) (c : List Nat) (m : List (List Nat)),
    (∀ k, k < xs.length → xs.getD k 0 = lengths.getD (i + k) 0) →
    s = (c.map (fun idx => lengths.getD idx 0)).sum →
    (2 ≤ c.length → s ≤ cap) →
    (∀ g ∈ m, 2 ≤ g.length → (g.map (fun idx => lengths.getD idx 0)).sum ≤ cap) →
    ∀ g ∈ greedySpecLoop cap xs i s c m, 2 ≤ g.length →
      (g.map (fun idx => lengths.getD idx 0)).sum ≤ cap := by
  intro xs
  induction xs with
  | nil =>
    intro i s c m _ hsum hcur hm g hg hglen
    simp only [greedySpecLoop] at hg
    split_ifs at hg with h0
    · rcases List.mem_append.mp hg with h | h
      · exact hm g h hglen
      · have : g = c := by simpa using h
        subst this
        exact hsum ▸ hcur hglen
    · exact hm g hg hglen
  | cons x xs ih =>
    intro i s c m hcoh hsum hcur hm g hg hglen
    have hx : x = lengths.getD i 0 := by
      have := hcoh 0 (by simp)
      simpa using this
    simp only [greedySpecLoop] at hg
    have hcoh2 : ∀ k, k < xs.length → xs.getD k 0 = lengths.getD ((i + 1) + k) 0 := by
      intro k hk
      have := hcoh (k + 1) (by simpa using Nat.succ_lt_succ hk)
      simp only [List.getD_cons_succ] at this
      rw [this]
      congr 1
      omega
    split_ifs at hg with hcap
    · refine ih (i + 1) (s + x) (c ++ [i]) m hcoh2 ?_ (fun _ => hcap) hm g hg hglen
      rw [List.map_append, List.sum_append]
      simp [hsum, hx]
    · refine ih (i + 1) x [i] (m ++ [c]) hcoh2 (by simp [hx]) ?_ ?_ g hg hglen
      · intro habs
        simp at habs
      · intro g' hg' hglen'
        rcases List.mem_append.mp hg' with h | h
        · exact hm g' h hglen'
        · have : g' = c := by simpa using h
          subst this
          exact hsum ▸ hcur hglen'

/-- C7 amended: every group returned by the packer that has at least two
members has total member length at most the capacity; a group exceeding the
capacity can only be a singleton (a single sequence longer than the
capacity), which the packer produces without any assertion — the original
claim's unconditional capacity bound and its fail-fast assertion are
refuted by `claim_C7_counterexample`. -/
theorem claim_C7_amended (lengths : List Nat) (capacity : Nat) :
    ∀ g ∈ merge_data_points_by_length lengths capacity, 2 ≤ g.length →
      (g.map (fun idx => lengths.getD idx 0)).sum ≤ capacity := by
  rw [merge_eq_greedySpecPack]
  unfold greedySpecPack
  exact greedySpecLoop_cap_invariant lengths capacity lengths 0 0 [] []
    (fun k _ => by simp) rfl (by simp) (by simp)

/-- C7 witness: the two-member group `[0, 1]` of the packing of
`[5,5,5,7]` at capacity `10` respects the capacity bound. -/
theorem claim_C7_witness :
    [0, 1] ∈ merge_data_points_by_length [5, 5, 5, 7] 10 ∧
    ([0, 1].map (fun idx => ([5, 5, 5, 7] : List Nat).getD idx 0)).sum ≤ 10 :=
  ⟨by decide, claim_C7_amended [5, 5, 5, 7] 10 [0, 1] (by decide) (by decide)⟩

/-- Helper: the block-writing loop never touches entries whose row lies
below the running offset (all blocks start at or after `acc`). -/
theorem fillBlocks_below (m : Int) : ∀ (lengths : List Nat) (acc : Nat)
    (f : Nat → Nat → Int) (i j : Nat), i < acc →
    fillBlocks m lengths acc f i j = f i j := by
  intro lengths
  induction lengths with
  | nil => intro acc f i j _; rfl
  | cons l rest ih =>
    intro acc f i j hlt
    show fillBlocks m rest (acc + l) _ i j = f i j
    rw [ih (acc + l) _ i j (by omega)]
    exact if_neg (fun hC => absurd hC.1 (by omega))

/-- Helper: inside the `k`-th block, the mask written by the loop is the
causal mask at the block-relative coordinates. -/
theorem fillBlocks_in_block (m : Int) : ∀ (lengths : List Nat) (k : Nat),
    k < lengths.length → ∀ (acc : Nat) (f : Nat → Nat → Int) (i j : Nat),
    i < lengths.getD k 0 → j < lengths.getD k 0 →
    fillBlocks m lengths acc f (acc + segStart lengths k + i) (acc + segStart lengths k + j) =
      get_causal_mask m i j := by
  intro lengths
  induction lengths with
  | nil => intro k hk; simp at hk
  | cons l rest ih =>
    intro k hk acc f i j hi hj
    cases k with
    | zero =>
      show fillBlocks m rest (acc + l) _ (acc + segStart (l :: rest) 0 + i)
        (acc + segStart (l :: rest) 0 + j) = _
      have hseg : segStart (l :: rest) 0 = 0 := rfl
      have hgetd : (l :: rest).getD 0 0 = l := rfl
      rw [hseg]
      rw [fillBlocks_below m rest (acc + l) _ (acc + 0 + i) (acc + 0 + j)
        (by rw [hgetd] at hi; omega)]
      rw [if_pos ⟨by omega, by rw [hgetd] at hi; omega, by omega, by rw [hgetd] at hj; omega⟩]
      have e1 : acc + 0 + i - acc = i := by omega
      have e2 : acc + 0 + j - acc = j := by omega
      rw [e1, e2]
    | succ k =>
      have hseg : segStart (l :: rest) (k + 1) = l + segStart rest k := rfl
      have hgetd : (l :: rest).getD (k + 1) 0 = rest.getD k 0 := rfl
      rw [hgetd] at hi hj
      show fillBlocks m rest (acc + l) _ (acc + segStart (l :: rest) (k + 1) + i)
        (acc + segStart (l :: rest) (k + 1) + j) = _
      rw [hseg]
      have e1 : acc + (l + segStart rest k) + i = (acc + l) + segStart rest k + i := by omega
      have e2 : acc + (l + segStart rest k) + j = (acc + l) + segStart rest k + j := by omega
      rw [e1, e2]
      exact ih k (by simpa using Nat.lt_of_succ_lt_succ hk) (acc + l) _ i j hi hj

/-- Helper: an entry whose row and column do not both lie inside any single
block falls through the whole block-writing loop. -/
theorem fillBlocks_outside (m : Int) : ∀ (lengths : List Nat) (acc : Nat)
    (f : Nat → Nat → Int) (i j : Nat),
    (∀ k, k < lengths.length →
      ¬ (acc + segStart lengths k ≤ i ∧ i < acc + segStart lengths k + lengths.getD k 0 ∧
         acc + segStart lengths k ≤ j ∧ j < acc + segStart lengths k + lengths.getD k 0)) →
    fillBlocks m lengths acc f i j = f i j := by
  intro lengths
  induction lengths with
  | nil => intro acc f i j _; rfl
  | cons l rest ih =>
    intro acc f i j hout
    show fillBlocks m rest (acc + l) _ i j = f i j
    rw [ih (acc + l) _ i j ?_]
    · refine if_neg ?_
      have h0 := hout 0 (by simp)
      have hseg : segStart (l :: rest) 0 = 0 := rfl
      have hgetd : (l :: rest).getD 0 0 = l := rfl
      rw [hseg, hgetd] at h0
      intro hC
      exact h0 ⟨by omega, by have := hC.2.1; omega, by omega, by have := hC.2.2.2; omega⟩
    · intro k hk
      have hk1 := hout (k + 1) (by simpa using Nat.succ_lt_succ hk)
      have hseg : segStart (l :: rest) (k + 1) = l + segStart rest k := rfl
      have hgetd : (l :: rest).getD (k + 1) 0 = rest.getD k 0 := rfl
      rw [hseg, hgetd] at hk1
      intro hC
      exact hk1 ⟨by have := hC.1; omega, by have := hC.2.1; omega,
        by have := hC.2.2.1; omega, by have := hC.2.2.2; omega⟩

/-- Helper: the offset of the next segment is this segment's offset plus
its length. -/
theorem segStart_succ : ∀ (lengths : List Nat) (k : Nat), k < lengths.length →
    segStart lengths (k + 1) = segStart lengths k + lengths.getD k 0 := by
  intro lengths
  induction lengths with
  | nil => intro k hk; simp at hk
  | cons l rest ih =>
    intro k hk
    cases k with
    | zero =>
      show l + segStart rest 0 = segStart (l :: rest) 0 + l
      have h1 : segStart rest 0 = 0 := by cases rest <;> rfl
      have h2 : segStart (l :: rest) 0 = 0 := rfl
      omega
    | succ k =>
      show l + segStart rest (k + 1) = (l + segStart rest k) + rest.getD k 0
      rw [ih k (by simpa using Nat.lt_of_succ_lt_succ hk)]
      omega

/-- Helper: segment offsets are monotone in the segment index. -/
theorem segStart_mono : ∀ (lengths : List Nat) (a b : Nat), a ≤ b →
    segStart lengths a ≤ segStart lengths b := by
  intro lengths
  induction lengths with
  | nil =>
    intro a b _
    have h1 : segStart [] a = 0 := by cases a <;> rfl
    have h2 : segStart [] b = 0 := by cases b <;> rfl
    omega
  | cons l rest ih =>
    intro a b hab
    cases a with
    | zero =>
      show 0 ≤ segStart (l :: rest) b
      omega
    | succ a =>
      cases b with
      | zero => omega
      | succ b =>
        show l + segStart rest a ≤ l + segStart rest b
        have := ih a b (by omega)
        omega

/-- Helper: every segment offset is at most the total length. -/
theorem segStart_le_sum : ∀ (lengths : List Nat) (k : Nat),
    segStart lengths k ≤ lengths.sum := by
  intro lengths
  induction lengths with
  | nil =>
    intro k
    have : segStart [] k = 0 := by cases k <;> rfl
    omega
  | cons l rest ih =>
    intro k
    cases k with
    | zero => show (0 : Nat) ≤ _; omega
    | succ k =>
      show l + segStart rest k ≤ (l :: rest).sum
      have := ih k
      simp only [List.sum_cons]
      omega

/-- Helper: a position can lie in at most one segment's block. -/
theorem segBlock_uniq (lengths : List Nat) (a b : Nat)
    (ha : a < lengths.length) (hb : b < lengths.length) (i : Nat)
    (ha1 : segStart lengths a ≤ i) (ha2 : i < segStart lengths a + lengths.getD a 0)
    (hb1 : segStart lengths b ≤ i) (hb2 : i < segStart lengths b + lengths.getD b 0) :
    a = b := by
  rcases Nat.lt_trichotomy a b with h | h | h
  · have h1 := segStart_succ lengths a ha
    have h2 := segStart_mono lengths (a + 1) b (by omega)
    omega
  · exact h
  · have h1 := segStart_succ lengths b hb
    have h2 := segStart_mono lengths (b + 1) a (by omega)
    omega

/-- Helper: every position below the total length lies in some segment's
block. -/
theorem segCover : ∀ (lengths : List Nat) (j : Nat), j < lengths.sum →
    ∃ k, k < lengths.length ∧ ∃ r, r < lengths.getD k 0 ∧ j = segStart lengths k + r := by
  intro lengths
  induction lengths with
  | nil => intro j hj; simp at hj
  | cons l rest ih =>
    intro j hj
    by_cases hjl : j < l
    · exact ⟨0, by simp, j, hjl, by show j = 0 + j; omega⟩
    · have hj2 : j - l < rest.sum := by
        simp only [List.sum_cons] at hj
        omega
      obtain ⟨k, hk, r, hr, heq⟩ := ih (j - l) hj2
      refine ⟨k + 1, by simpa using Nat.succ_lt_succ hk, r, hr, ?_⟩
      show j = l + segStart rest k + r
      omega

/-- Helper: within a segment the built mask is causal in block-relative
coordinates. -/
theorem mask_in_block (lengths : List Nat) (maxL : Nat) (m : Int)
    (hs : lengths.sum ≤ maxL) (k : Nat) (hk : k < lengths.length) (i j : Nat)
    (hi : i < lengths.getD k 0) (hj : j < lengths.getD k 0) :
    create_mask_from_lengths lengths maxL m (segStart lengths k + i) (segStart lengths k + j) =
      if j ≤ i then 0 else m := by
  have h1 := segStart_succ lengths k hk
  have h2 := segStart_le_sum lengths (k + 1)
  simp only [create_mask_from_lengths]
  rw [if_neg (by omega), if_neg (by omega)]
  have e1 : segStart lengths k + i = 0 + segStart lengths k + i := by omega
  have e2 : segStart lengths k + j = 0 + segStart lengths k + j := by omega
  rw [e1, e2, fillBlocks_in_block m lengths k hk 0 _ i j hi hj]
  simp [get_causal_mask, Nat.lt_succ_iff]

/-- Helper: an entry whose row and column lie in two distinct segments
keeps the fill value. -/
theorem mask_cross_block (lengths : List Nat) (maxL : Nat) (m : Int)
    (hs : lengths.sum ≤ maxL) (a b : Nat) (ha : a < lengths.length)
    (hb : b < lengths.length) (hab : a ≠ b) (i j : Nat)
    (hi1 : segStart lengths a ≤ i) (hi2 : i < segStart lengths a + lengths.getD a 0)
    (hj1 : segStart lengths b ≤ j) (hj2 : j < segStart lengths b + lengths.getD b 0) :
    create_mask_from_lengths lengths maxL m i j = m := by
  have ha1 := segStart_succ lengths a ha
  have ha2 := segStart_le_sum lengths (a + 1)
  have hb1 := segStart_succ lengths b hb
  have hb2 := segStart_le_sum lengths (b + 1)
  simp only [create_mask_from_lengths]
  rw [if_neg (by omega), if_neg (by omega)]
  have hout : ∀ k, k < lengths.length →
      ¬ (0 + segStart lengths k ≤ i ∧ i < 0 + segStart lengths k + lengths.getD k 0 ∧
         0 + segStart lengths k ≤ j ∧ j < 0 + segStart lengths k + lengths.getD k 0) := by
    intro k hk hC
    have hka : k = a := segBlock_uniq lengths k a hk ha i
      (by have := hC.1; omega) (by have := hC.2.1; omega) hi1 hi2
    have hkb : k = b := segBlock_uniq lengths k b hk hb j
      (by have := hC.2.2.1; omega) (by have := hC.2.2.2; omega) hj1 hj2
    exact hab (by omega)
  rw [fillBlocks_outside m lengths 0 _ i j hout]

/-- Helper: a padding row (at or beyond the total length) is `0` on real
columns and `m` on padding columns (the final column write wins on the
corner). -/
theorem mask_pad_row (lengths : List Nat) (maxL : Nat) (m : Int)
    (hs : lengths.sum ≤ maxL) (i j : Nat) (hi : lengths.sum ≤ i) (him : i < maxL)
    (hjm : j < maxL) :
    create_mask_from_lengths lengths maxL m i j = if lengths.sum ≤ j then m else 0 := by
  simp only [create_mask_from_lengths]
  by_cases hj : lengths.sum ≤ j
  · rw [if_pos (⟨by omega, by omega⟩ : 0 < maxL - lengths.sum ∧
      maxL - (maxL - lengths.sum) ≤ j), if_pos hj]
  · rw [if_neg (by omega), if_pos (⟨by omega, by omega⟩ : 0 < maxL - lengths.sum ∧
      maxL - (maxL - lengths.sum) ≤ i), if_neg hj]

/-- Helper: a padding column (at or beyond the total length) is entirely
`m`. -/
theorem mask_pad_col (lengths : List Nat) (maxL : Nat) (m : Int)
    (hs : lengths.sum ≤ maxL) (i j : Nat) (hj : lengths.sum ≤ j) (hjm : j < maxL) :
    create_mask_from_lengths lengths maxL m i j = m := by
  simp only [create_mask_from_lengths]
  rw [if_pos (⟨by omega, by omega⟩ : 0 < maxL - lengths.sum ∧
    maxL - (maxL - lengths.sum) ≤ j)]

/-- C3 amended: for every list of segment lengths whose sum is at most the
capacity, (1) within each segment at offset `segStart`, entry
`(O+i, O+j)` is `0` iff `j ≤ i` and the fill value otherwise; (2) every
entry whose row and column lie in two distinct segments is the fill value;
(3) every padding row is `0` on real columns but carries the fill value on
padding columns (the pad-row/pad-column corner is forbidden, not `0` —
this is the one correction to the claim, forced by
`claim_C3_counterexample`); and (4) every padding column is entirely the
fill value. -/
theorem claim_C3_amended (lengths : List Nat) (capacity : Nat) (m : Int)
    (hs : lengths.sum ≤ capacity) :
    (∀ k, k < lengths.length → ∀ i j, i < lengths.getD k 0 → j < lengths.getD k 0 →
      create_mask_from_lengths lengths capacity m
          (segStart lengths k + i) (segStart lengths k + j) =
        if j ≤ i then 0 else m) ∧
    (∀ a b, a < lengths.length → b < lengths.length → a ≠ b →
      ∀ i j, segStart lengths a ≤ i → i < segStart lengths a + lengths.getD a 0 →
        segStart lengths b ≤ j → j < segStart lengths b + lengths.getD b 0 →
        create_mask_from_lengths lengths capacity m i j = m) ∧
    (∀ i j, lengths.sum ≤ i → i < capacity → j < capacity →
      create_mask_from_lengths lengths capacity m i j =
        if lengths.sum ≤ j then m else 0) ∧
    (∀ i j, lengths.sum ≤ j → j < capacity →
      create_mask_from_lengths lengths capacity m i j = m) := by
  refine ⟨?_, ?_, ?_, ?_⟩
  · intro k hk i j hi hj
    exact mask_in_block lengths capacity m hs k hk i j hi hj
  · intro a b ha hb hab i j hi1 hi2 hj1 hj2
    exact mask_cross_block lengths capacity m hs a b ha hb hab i j hi1 hi2 hj1 hj2
  · intro i j hi him hjm
    exact mask_pad_row lengths capacity m hs i j hi him hjm
  · intro i j hj hjm
    exact mask_pad_col lengths capacity m hs i j hj hjm

/-- C3 witness: concrete instances of all four parts at lengths `[2,1]`,
capacity `4`, fill `-1`: a causal entry inside segment 0, a cross-segment
entry, a padding-row entry over a real column, and a padding-column
entry. -/
theorem claim_C3_witness :
    create_mask_from_lengths [2, 1] 4 (-1) 1 0 = 0 ∧
    create_mask_from_lengths [2, 1] 4 (-1) 0 2 = -1 ∧
    create_mask_from_lengths [2, 1] 4 (-1) 3 0 = 0 ∧
    create_mask_from_lengths [2, 1] 4 (-1) 0 3 = -1 := by
  have h := claim_C3_amended [2, 1] 4 (-1) (by decide)
  refine ⟨?_, ?_, ?_, ?_⟩
  · exact (h.1 0 (by decide) 1 0 (by decide) (by decide)).trans (by decide)
  · exact h.2.1 0 1 (by decide) (by decide) (by decide) 0 2
      (by decide) (by decide) (by decide) (by decide)
  · exact (h.2.2.1 3 0 (by decide) (by decide) (by decide)).trans (by decide)
  · exact h.2.2.2 0 3 (by decide) (by decide)

/-- C8 amended: the agreement between token padding side and mask padding
side holds when `tokenizer.padding_side == "right"` (and only then — see
`claim_C8_counterexample` for the left-padding mismatch): with trailing
token padding, every index at or beyond the concatenated length holds the
pad token and is a fully forbidden mask column, while every index below it
holds the original token and is not a fully forbidden column. -/
theorem claim_C8_amended (data_points : List (List Int)) (pad_id m : Int)
    (capacity : Nat) (hlen : (data_points.flatten).length ≤ capacity) (hm : m ≠ 0) :
    (∀ j, (data_points.flatten).length ≤ j → j < capacity →
      (merge_data_points_tokens true pad_id capacity data_points).getD j 0 = pad_id ∧
      ∀ i, i < capacity →
        create_mask_from_lengths (data_points.map List.length) capacity m i j = m) ∧
    (∀ j, j < (data_points.flatten).length →
      (merge_data_points_tokens true pad_id capacity data_points).getD j 0 =
        (data_points.flatten).getD j 0 ∧
      ¬ (∀ i, i < capacity →
          create_mask_from_lengths (data_points.map List.length) capacity m i j = m)) := by
  have hsum : (data_points.map List.length).sum = (data_points.flatten).length :=
    (List.length_flatten data_points).symm
  constructor
  · intro j hj1 hj2
    constructor
    · simp only [merge_data_points_tokens, if_true]
      rw [List.getD_eq_getElem?_getD, List.getElem?_append_right hj1,
        List.getElem?_replicate_of_lt (by omega)]
      rfl
    · intro i _
      exact mask_pad_col (data_points.map List.length) capacity m (by omega) i j
        (by omega) hj2
  · intro j hj
    constructor
    · simp only [merge_data_points_tokens, if_true]
      rw [List.getD_eq_getElem?_getD, List.getElem?_append_left hj,
        List.getD_eq_getElem?_getD]
    · intro hall
      obtain ⟨k, hk, r, hr, heq⟩ :=
        segCover (data_points.map List.length) j (by omega)
      have hdiag := mask_in_block (data_points.map List.length) capacity m
        (by omega) k hk r r hr hr
      have h0 : create_mask_from_lengths (data_points.map List.length) capacity m
          (segStart (data_points.map List.length) k + r)
          (segStart (data_points.map List.length) k + r) = 0 := by
        rw [hdiag]
        simp
      have hthis := hall j (by omega)
      rw [heq] at hthis
      exact hm ((h0.symm.trans hthis).symm)

/-- C8 witness: one data point `[5]` packed at capacity `2` with pad id
`99` and right padding — position `1` is the pad token and a fully
forbidden column entry; the hypotheses are discharged concretely. -/
theorem claim_C8_witness :
    (merge_data_points_tokens true 99 2 [[5]]).getD 1 0 = 99 ∧
    create_mask_from_lengths ([[(5 : Int)]].map List.length) 2 (-1) 0 1 = -1 :=
  ⟨((claim_C8_amended [[5]] 99 (-1) 2 (by decide) (by decide)).1 1
      (by decide) (by decide)).1,
   ((claim_C8_amended [[5]] 99 (-1) 2 (by decide) (by decide)).1 1
      (by decide) (by decide)).2 0 (by decide)⟩

/-- C4 witness: the equivalence instantiated at the claim's concrete
example. -/
theorem claim_C4_witness :
    merge_data_points_by_length [5, 5, 5, 7] 10 = greedySpecPack [5, 5, 5, 7] 10 :=
  claim_C4.1 [5, 5, 5, 7] 10

/-- C6 witness: the `PackedDataset` load decision and truncation
instantiated at cached `max_length` `10` and requested `max_length` `8`. -/
theorem claim_C6_witness :
    (packedDataset_init_loads true true false 10 8 = true ↔
      (true = true ∧ false = false ∧ 8 ≤ 10)) ∧
    (packedDataset_load_truncate 2 [1, 2, 3]).length = min 2 3 :=
  ⟨claim_C6_amended.1 true false 10 8, (claim_C6_amended.2 2 [1, 2, 3]).1⟩
